import Mathlib

/-!
# Verification of the collib allocator family

Shallow embedding, in Lean 4, of the allocator core of the `collib`
repository: the numeric primitives (`align`, `Power2` from
`collib_types.h`), the stack (LIFO) allocator (`stack_allocator.cpp`),
the arena allocator (`arena_allocator.cpp`), the buddy-style
`LeanTreeAllocator` (`lean_tree_allocator.cpp`), the leak-tracking sink
and the per-thread default-allocator stack (`allocator.cpp`).

Machine integers (`byte_size = size_t`, `count_t = uint32_t`) are
modelled as `Nat`; all quantities handled by the embedded fragments stay
far below `2^32`, so no wrap-around is reachable in the modelled paths
and no explicit reduction is inserted.  Alignments and `Power2` values
are carried as their base-2 logarithm, exactly as in the C++ classes
(`m_logSize` / `m_log2`).
-/

namespace Collib

/-! ## Numeric primitives (`collib_types.h`)

`align` stores `log2` of a power-of-two byte count.  `round_down` masks
the low bits, `round_up n = round_down (n + (alignment - 1))`,
`padding p = round_up p - p`. -/

/-- Embeds `align::round_down` for an alignment of `2^lg` bytes. -/
def alignRoundDown (lg n : Nat) : Nat := n / 2 ^ lg * 2 ^ lg

/-- Embeds `align::round_up` for an alignment of `2^lg` bytes. -/
def alignRoundUp (lg n : Nat) : Nat := alignRoundDown lg (n + (2 ^ lg - 1))

/-- Embeds `align::padding` of an address `p` for an alignment of `2^lg` bytes. -/
def alignPadding (lg p : Nat) : Nat := alignRoundUp lg p - p

/-- Embeds `align::system()` on an LP64 target: `from_bytes(sizeof(void*))`,
i.e. `log2 = 3` (8-byte pointers). -/
def systemAlignLog : Nat := 3

/-- Embeds `Power2::round_up` (`from_value`): log2 of the smallest power of two
that is `≥ x`.  The C++ computes `totalBits - countl_zero(x - 1)` after
an early return of `2^0` for `x ≤ 1`. -/
def p2roundUpLog (x : Nat) : Nat := if x ≤ 1 then 0 else Nat.log2 (x - 1) + 1

/-- Floor base-2 logarithm, structurally recursive on a fuel argument
(the value itself suffices, since the argument halves each step). -/
def log2Fuel : Nat → Nat → Nat
  | 0, _ => 0
  | fuel + 1, n => if n ≤ 1 then 0 else log2Fuel fuel (n / 2) + 1

/-- Embeds `Power2::round_down`: log2 of the largest power of two `≤ x`
(callers only use it on `x ≥ 1`). -/
def p2roundDownLog (x : Nat) : Nat := log2Fuel x x

/-- Saturating log subtraction used by `Power2::operator/`:
`m_log2 > other.m_log2 ? m_log2 - other.m_log2 : 0` (this coincides
with truncated subtraction on `Nat`). -/
def p2divLog (l1 l2 : Nat) : Nat := l1 - l2

/-! ## Stack allocator (`stack_allocator.h` / `stack_allocator.cpp`) -/

namespace StackAlloc

/-- Embeds `StackAllocator::Limits::maxAllocSize = 0x8000'0000` (2 GiB). -/
def maxAllocSize : Nat := 0x80000000

/-- Embeds `StackAllocator::Limits::maxBlockSize = 0x0800'0000` (128 MiB). -/
def limitMaxBlockSize : Nat := 0x08000000

/-- Embeds `StackAllocator::Limits::minBlockSize = 0x20`. -/
def limitMinBlockSize : Nat := 0x20

/-- Embeds `StackAllocator::Limits::minAlign = align::system()` (log2). -/
def minAlignLog : Nat := systemAlignLog

/-- Embeds `StackAllocator::Limits::maxAlign = align::system() << 7` (log2):
`align::operator<<` adds to the stored log, so the limit is
`2^(3+7) = 1024` bytes on an LP64 target. -/
def maxAlignLog : Nat := systemAlignLog + 7

/-- The two early-rejection checks at the top of `StackAllocator::alloc`:
`if (a > Limits::maxAlign) return {nullptr, 0};`
`if (bytes > Limits::maxAllocSize) return {nullptr, 0};`
(`align` is totally ordered by its stored log2). -/
def allocRejected (bytes alignLog : Nat) : Bool :=
  decide (maxAlignLog < alignLog) || decide (maxAllocSize < bytes)

/-- Embeds `sizeof(SBlockHeader)` on an LP64 target: a pointer (8) followed by
three `uint32_t` fields (12), padded to the 8-byte struct alignment. -/
def blockHeaderSize : Nat := 24

/-- Embeds `sizeof(ChunkData)`: a single `uint32_t`. -/
def chunkDataSize : Nat := 4

/-- The size passed to the backing allocator by
`StackAllocator::pushNewBlock(allocSize, a)`.  Faithful translation,
including the re-assignments of the local `blockSize`:

    allocSize += a.round_up(sizeof(SBlockHeader));
    allocSize += a.round_up(sizeof(ChunkData));
    byte_size blockSize = std::max(byte_size(m_params.minBlockSize), m_stats.totalMemory);
    blockSize = std::min(blockSize, byte_size(m_params.maxBlockSize));
    blockSize = std::max(byte_size(m_params.minBlockSize), allocSize);

The third assignment overwrites the first two, so their value is dead. -/
def pushNewBlockRequest (minBlockSize maxBlockSize totalMemory allocSize0 alignLog : Nat) : Nat :=
  let allocSize := allocSize0 + alignRoundUp alignLog blockHeaderSize
  let allocSize := allocSize + alignRoundUp alignLog chunkDataSize
  let blockSize := max minBlockSize totalMemory
  let blockSize := min blockSize maxBlockSize
  let blockSize := max minBlockSize allocSize
  blockSize

/-- Modelled from the spec: the new-block sizing policy stated in
§4.3 of the specification (and in the header comment of
`stack_allocator.h`), for comparison with `pushNewBlockRequest`:
`clamp(max(min_block_size, total_memory_so_far, corrected + overhead),
min_block_size, max_block_size)`. -/
def specNewBlockSize (minBlockSize maxBlockSize totalMemory correctedPlusOverhead : Nat) : Nat :=
  min (max minBlockSize (max totalMemory correctedPlusOverhead)) maxBlockSize

end StackAlloc

/-! ## Arena allocator (`arena_allocator.cpp`) -/

namespace Arena

/-- Arena allocator state: the base address of the backing buffer, its
size, and the bump offset `m_usedBytes` (`m_fallback` carries no state
observable through the arena itself). -/
structure State where
  base : Nat
  size : Nat
  used : Nat
  deriving Repr, DecidableEq

/-- Result of `ArenaAllocator::alloc`: either served from the arena
buffer (address and corrected size) or delegated to the fallback
allocator (with the corrected size and alignment it receives). -/
inductive AllocOutcome where
  | fromBuffer (address bytes : Nat)
  | delegated (bytes alignLog : Nat)
  deriving Repr, DecidableEq

/-- Embeds `ArenaAllocator::alloc(bytes, a)`:

    const byte_size padding = a.padding(m_buffer.data() + m_usedBytes);
    const byte_size correctedSize = a.round_up(bytes);
    const byte_size totalSize = padding + correctedSize;
    const byte_size remaining = m_buffer.size() - m_usedBytes;
    if (totalSize > remaining)
        return m_fallback.alloc(correctedSize, a);
    const byte_size offset = m_usedBytes + padding;
    m_usedBytes += totalSize;
    return {m_buffer.data() + offset, correctedSize};
-/
def alloc (s : State) (bytes alignLog : Nat) : AllocOutcome × State :=
  let padding := alignPadding alignLog (s.base + s.used)
  let correctedSize := alignRoundUp alignLog bytes
  let totalSize := padding + correctedSize
  let remaining := s.size - s.used
  if totalSize > remaining then
    (AllocOutcome.delegated correctedSize alignLog, s)
  else
    (AllocOutcome.fromBuffer (s.base + s.used + padding) correctedSize,
      { s with used := s.used + totalSize })

end Arena

/-! ## Stack allocator: chunks, blocks, `tryExpand`, `free`
(`stack_allocator.cpp`) -/

namespace StackAlloc

/-- Embeds `ChunkData` packs `offset:28 | alignment:3 | used:1` into a
`uint32_t`: `m_data = (offset << 4) | (alignValue << 1) | 1` with
`alignValue = a.log2Size() - minAlign.log2Size()`.  The packed word is
modelled directly as a `Nat`. -/
def chunkMk (offset alignLog : Nat) : Nat :=
  offset * 16 + (alignLog - minAlignLog) * 2 + 1

/-- Embeds `ChunkData::offset()`: `m_data >> 4`. -/
def chunkOffset (d : Nat) : Nat := d / 16

/-- Embeds `ChunkData::used()`: `(m_data & 1) != 0`. -/
def chunkUsed (d : Nat) : Bool := d % 2 = 1

/-- Embeds `ChunkData::align()`: `((m_data >> 1) & 0x7) + minAlign.log2Size()`
(returned as a log2). -/
def chunkAlignLog (d : Nat) : Nat := d / 2 % 8 + minAlignLog

/-- Embeds `ChunkData::free()`: `m_data &= ~1`. -/
def chunkSetFree (d : Nat) : Nat := d / 2 * 2

/-- One block of the stack allocator (`SBlockHeader` plus its contents).
`base` is the address returned by `data()`; `chunks` is the metadata
stack with the most recently pushed chunk (`chunksTop()`) at the head,
so `allocCount = chunks.length`. -/
structure Block where
  base : Nat
  capacity : Nat
  dataBytesUsed : Nat
  chunks : List Nat
  deriving Repr, DecidableEq

/-- Embeds `SBlockHeader::freeBytes()`:
`capacity - dataBytesUsed - allocCount * sizeof(ChunkData)`. -/
def freeBytes (b : Block) : Nat :=
  b.capacity - b.dataBytesUsed - b.chunks.length * chunkDataSize

/-- The body of `StackAllocator::tryExpand` once the block containing
the pointer has been located (`buffer` is given as `base + bufOffset`):

    ChunkData* topChunk = curBlock->chunksTop();
    if (buffer != base + topChunk->offset()) return logResult(0);
    const byte_size available = curBlock->freeBytes();
    const align a = topChunk->align();
    byte_size currentSize = curBlock->dataBytesUsed - topChunk->offset();
    byte_size maxChunkSize = available + currentSize;
    maxChunkSize = a.round_down(maxChunkSize);
    const byte_size newSize = std::min(maxChunkSize, std::max(bytes, currentSize));
    if (newSize > currentSize) { curBlock->dataBytesUsed += newSize - currentSize; return logResult(newSize); }
    else return logResult(0);

The `chunks = []` case is unreachable here (a block holding the pointer
of a live chunk has `allocCount > 0`) and returns 0 unchanged. -/
def blockTryExpand (b : Block) (bytes bufOffset : Nat) : Nat × Block :=
  match b.chunks with
  | [] => (0, b)
  | top :: _ =>
    if bufOffset ≠ chunkOffset top then (0, b)
    else
      let available := freeBytes b
      let aLog := chunkAlignLog top
      let currentSize := b.dataBytesUsed - chunkOffset top
      let maxChunkSize := alignRoundDown aLog (available + currentSize)
      let newSize := min maxChunkSize (max bytes currentSize)
      if newSize > currentSize then
        (newSize, { b with dataBytesUsed := b.dataBytesUsed + (newSize - currentSize) })
      else (0, b)

/-- Modelled from the spec: the candidate size of §4.3 `try_expand` as
the claim reads it — `min(available + current, max(new_bytes, current))`
rounded down to the chunk's stored alignment — for comparison with
`blockTryExpand`. -/
def specTryExpandCandidate (b : Block) (bytes : Nat) : Nat :=
  match b.chunks with
  | [] => 0
  | top :: _ =>
    let available := freeBytes b
    let currentSize := b.dataBytesUsed - chunkOffset top
    alignRoundDown (chunkAlignLog top) (min (available + currentSize) (max bytes currentSize))

/-- Modelled from the spec: the result the claim predicts for
`try_expand` on the top chunk: the candidate when it exceeds the current
size, else 0. -/
def specTryExpandResult (b : Block) (bytes : Nat) : Nat :=
  match b.chunks with
  | [] => 0
  | top :: _ =>
    let currentSize := b.dataBytesUsed - chunkOffset top
    if specTryExpandCandidate b bytes > currentSize then specTryExpandCandidate b bytes else 0

/-- The chunk-scanning loop of `tryFree(SBlockHeader&, uint8_t*)`:
look for the chunk whose start address (`base + offset`) matches the
buffer, starting from the most recent chunk, and mark it free. -/
def markChunk (base buffer : Nat) : List Nat → Option (List Nat)
  | [] => none
  | c :: cs =>
    if buffer = base + chunkOffset c then some (chunkSetFree c :: cs)
    else (markChunk base buffer cs).map (c :: ·)

/-- Embeds `tryFree(SBlockHeader&, uint8_t*)`: if the buffer lies inside the
block's data area, scan the chunk metadata for one whose start address
matches, mark it free and report success. -/
def tryFree (b : Block) (buffer : Nat) : Option Block :=
  if buffer < b.base ∨ b.base + b.capacity ≤ buffer then none
  else (markChunk b.base buffer b.chunks).map fun cs => { b with chunks := cs }

/-- The inner loop of `StackAllocator::cleanAfterFree` on
`(dataBytesUsed, chunk stack)`: pop chunks off the top while they are
marked free, rolling `dataBytesUsed` back to each popped chunk's
offset. -/
def popFreeChunks (dataBytesUsed : Nat) : List Nat → Nat × List Nat
  | [] => (dataBytesUsed, [])
  | top :: rest =>
    if chunkUsed top then (dataBytesUsed, top :: rest)
    else popFreeChunks (chunkOffset top) rest

/-- Embeds `StackAllocator::cleanAfterFree`: compact the head block; when a
block becomes empty release it back to the backing allocator (dropping
it from the chain) and continue with the next block down the chain. -/
def cleanAfterFree : List Block → List Block
  | [] => []
  | b :: rest =>
    let (d, cs) := popFreeChunks b.dataBytesUsed b.chunks
    if cs.length > 0 then { b with dataBytesUsed := d, chunks := cs } :: rest
    else cleanAfterFree rest

/-- Errors raised as fatal failures (`std::runtime_error`) by the
allocators' `free` paths. -/
inductive FreeError where
  | invalidFree
  deriving Repr, DecidableEq

/-- The block-chain scan of `StackAllocator::free(void*)`: mark the
chunk owning `buffer` as free in the block that contains it. -/
def markInChain (blocks : List Block) (buffer : Nat) : Option (List Block) :=
  match blocks with
  | [] => none
  | b :: rest =>
    match tryFree b buffer with
    | some b' => some (b' :: rest)
    | none => (markInChain rest buffer).map (b :: ·)

/-- Embeds `StackAllocator::free(void*)`: walk the block chain, mark the
matching chunk free, then run `cleanAfterFree()` starting at the head
block; an unknown pointer is an `InvalidFree`
(`throw std::runtime_error(...)`). -/
def stackFree (blocks : List Block) (buffer : Nat) : Except FreeError (List Block) :=
  match markInChain blocks buffer with
  | some bs => .ok (cleanAfterFree bs)
  | none => .error .invalidFree

end StackAlloc

/-! ## Leak-tracking sink (`DebugLogSink`, `allocator.cpp`)

The `bmap<SAllocationKey, byte_size>` of live allocations is modelled
as an association list keyed by `(allocator, buffer)` address pairs. -/

namespace Sink

/-- An allocation key: `(allocator identity, buffer address)`. -/
abbrev Key := Nat × Nat

/-- The recorded-allocations map. -/
abbrev AllocMap := List (Key × Nat)

/-- Look up a key in the map. -/
def lookupKey (m : AllocMap) (k : Key) : Option Nat :=
  match m with
  | [] => none
  | (k', v) :: rest => if k' = k then some v else lookupKey rest k

/-- Embeds `bmap::operator[] = value` / `insert_or_assign`: replace the
entry's value if the key is present, insert it otherwise. -/
def assignKey (m : AllocMap) (k : Key) (v : Nat) : AllocMap :=
  match m with
  | [] => [(k, v)]
  | (k', v') :: rest => if k' = k then (k, v) :: rest else (k', v') :: assignKey rest k v

/-- Embeds `DebugLogSink::tryExpand(alloc, requestedBytes, allocBytes, buffer)`:

    if (requestedBytes == 0) return;
    m_int->allocations[SAllocationKey{&alloc, buffer}] = allocBytes;

(`allocBytes` is the size granted by the allocator — the dispatcher
passes the `tryExpand` result there.) -/
def sinkTryExpand (m : AllocMap) (allocId buffer requestedBytes allocBytes : Nat) : AllocMap :=
  if requestedBytes = 0 then m
  else assignKey m (allocId, buffer) allocBytes

end Sink

/-! ## Per-thread default-allocator stack (`allocator.cpp`)

`tl_defaultAllocators` is a `darray<IAllocator*>`: a growable array of
nullable pointers, modelled as `List (Option Nat)` with index 0 at the
bottom and `back()` at the end.  `none` is a tombstone slot. -/

namespace DefaultStack

/-- The stack of default allocators. -/
abbrev Stack := List (Option Nat)

/-- Embeds `defaultAllocator()`:

    if (tl_defaultAllocators.empty()) return sillyMallocAllocator;
    else return *tl_defaultAllocators.back();

The result is `none` for the process-static `MallocAllocator` and
`some i` for a user allocator.  (In every state reachable through
`AllocatorHolder`, `back()` is non-null whenever the stack is
non-empty, so the null-back case never overlaps with the empty case.) -/
def defaultAlloc (s : Stack) : Option Nat :=
  match s.getLast? with
  | none => none
  | some a => a

/-- Embeds `AllocatorHolder::AllocatorHolder(alloc)`: record the current stack
size as the holder's position and push the allocator.  Returns the new
stack and the recorded position. -/
def holderPush (s : Stack) (a : Nat) : Stack × Nat :=
  (s ++ [some a], s.length)

/-- The reaping loop of `AllocatorHolder::pop`:

    while (!tl_defaultAllocators.empty() && tl_defaultAllocators.back() == nullptr)
        tl_defaultAllocators.pop_back();
-/
def reap (s : Stack) : Stack :=
  match s with
  | [] => []
  | x :: rest =>
    let rest' := reap rest
    if rest' = [] ∧ x = none then [] else x :: rest'

/-- Embeds `AllocatorHolder::pop` (for a holder that is still armed): write
`nullptr` at the recorded position if it is in range, then pop trailing
null slots. -/
def holderPop (s : Stack) (position : Nat) : Stack :=
  reap (if position < s.length then s.set position none else s)

/-- A run of scope-guard events on one thread: constructions pushing an
allocator, destructions popping a previously constructed holder. -/
inductive Ev where
  | push (a : Nat)
  | pop (position : Nat)
  deriving Repr, DecidableEq

/-- A world: the thread-local stack plus the set of still-live holders,
each as `(recorded position, allocator)`. -/
structure World where
  stack : Stack
  live : List (Nat × Nat)
  deriving Repr, DecidableEq

/-- One event step.  A `pop p` event destroys the live holder whose
recorded position is `p`; popping a position that no live holder
occupies makes the run ill-formed (`none`). -/
def step (w : World) : Ev → Option World
  | .push a =>
    let (s', pos) := holderPush w.stack a
    some { stack := s', live := (pos, a) :: w.live }
  | .pop p =>
    match w.live.filter (fun q => q.1 = p) with
    | [] => none
    | _ :: _ =>
      some { stack := holderPop w.stack p,
             live := w.live.filter (fun q => q.1 ≠ p) }

/-- Run a list of events. -/
def run (w : World) : List Ev → Option World
  | [] => some w
  | e :: es => (step w e).bind (fun w' => run w' es)

end DefaultStack

/-! ## Buddy-tree allocator (`lean_tree_allocator.cpp`)

The per-level storage is modelled positionally: `bits l i` is bit `i`
of the level-`l` bit array (levels `0 ≤ l < kBitLevelCount`), `bytes l i`
is node byte `i` of the level-`l` byte array (`l ≥ kBitLevelCount`).
`getBit`/`setBits`/`clearBits` act on contiguous bit ranges exactly as
the word-based C++ helpers do (all call sites keep a range inside one
word or on a word boundary).  Sizes and block counts are powers of two
carried as logs (`Power2::m_log2`), with `2 ^ log` for `value()`. -/

namespace LeanTree

/-- Embeds `kBitLevelCount = 5`: levels below it are bit-packed. -/
def kBitLevelCount : Nat := 5

/-- Embeds `ByteNode::FreeSolid = 0x00`. -/
def freeSolid : Nat := 0x00

/-- Embeds `ByteNode::FullSolid = 0x02` (`UsedBit`). -/
def fullSolid : Nat := 0x02

/-- Embeds `ByteNode::FullFragmented = 0x03`. -/
def fullFragmented : Nat := 0x03

/-- Embeds `ByteNode::PartialBit = 0x80`. -/
def partialBit : Nat := 0x80

/-- The tracked state of the level arrays. -/
structure TreeState where
  bits : Nat → Nat → Bool
  bytes : Nat → Nat → Nat

/-- Fully zeroed backing memory for the level arrays (one admissible
content of the raw buffer returned by the backing allocator; the
fragments embedded here never read a cell they did not first write,
with the exception noted at `initTopLevel`). -/
def zeroState : TreeState := ⟨fun _ _ => false, fun _ _ => 0⟩

/-- Embeds `setBits` / `clearBits`: write `v` to bits `[index, index + n)` of
one bit array. -/
def setBitRange (f : Nat → Bool) (index n : Nat) (v : Bool) : Nat → Bool :=
  fun i => if index ≤ i ∧ i < index + n then v else f i

/-- Write a bit range at one bit level. -/
def writeBits (s : TreeState) (level index n : Nat) (v : Bool) : TreeState :=
  { s with bits := fun l i => if l = level then setBitRange (s.bits level) index n v i else s.bits l i }

/-- Write one node byte at one byte level. -/
def writeByte (s : TreeState) (level index v : Nat) : TreeState :=
  { s with bytes := fun l i => if l = level ∧ i = index then v else s.bytes l i }

/-- Embeds `getBitLevelValue(level, index)`. -/
def getBitLevelValue (s : TreeState) (level index : Nat) : Bool := s.bits level index

/-- Embeds `setBitLevelValue(level, index, value)`. -/
def setBitLevelValue (s : TreeState) (level index : Nat) (v : Bool) : TreeState :=
  writeBits s level index 1 v

/-- Embeds `setUsedBits(index, size)`: set `size.value() = 2^sizeLog` level-0
bits starting at `index`. -/
def setUsedBits (s : TreeState) (index sizeLog : Nat) : TreeState :=
  writeBits s 0 index (2 ^ sizeLog) true

/-- Embeds `setSolidBit(level, index)`. -/
def setSolidBit (s : TreeState) (level index : Nat) : TreeState :=
  writeBits s level index 1 true

/-- Embeds `lowerLevelLfb(level, index)`: largest free span (in basic blocks)
of a bit-level subtree.  A solid subtree is resolved through its first
level-0 bit (`index << level`); a split subtree takes the max of its
children. -/
def lowerLevelLfb (s : TreeState) : Nat → Nat → Nat
  | 0, index => if s.bits 0 index then 0 else 1
  | l + 1, index =>
    if s.bits (l + 1) index then
      if s.bits 0 (index * 2 ^ (l + 1)) then 0 else 2 ^ (l + 1)
    else
      max (lowerLevelLfb s l (2 * index)) (lowerLevelLfb s l (2 * index + 1))

/-- Embeds `byteLevelLfb(level, index)`: largest free span recorded in a byte
node.  `Partial(k)` (`PartialBit` set) gives `2^k`; `FreeSolid` gives
`2^level`; `FullSolid`/`FullFragmented` give 0.  Stored node values are
`uint8_t`, so `nodeData & ~PartialBit` is `v % 0x80`. -/
def byteLevelLfb (s : TreeState) (level index : Nat) : Nat :=
  let v := s.bytes level index
  if partialBit ≤ v then 2 ^ (v % partialBit)
  else if v = freeSolid then 2 ^ level
  else 0

/-- The comparison at the end of `selectFittingChild`:

    if (leftLfb <= rightLfb && leftLfb >= requestedSize) return 0;
    else if (rightLfb < requestedSize) { assert(leftLfb >= requestedSize); return 0; }
    else return 1;
-/
def chooseChild (leftLfb rightLfb requestedSize : Nat) : Nat :=
  if leftLfb ≤ rightLfb ∧ requestedSize ≤ leftLfb then 0
  else if rightLfb < requestedSize then 0
  else 1

/-- Embeds `selectFittingChild(level, index, basicBlocks)`: read both
children's largest free spans (byte-level lookup above the boundary,
bit-level recursion at and below it) and choose. -/
def selectFittingChild (s : TreeState) (level index requestedSize : Nat) : Nat :=
  if kBitLevelCount < level then
    chooseChild (byteLevelLfb s (level - 1) (2 * index))
      (byteLevelLfb s (level - 1) (2 * index + 1)) requestedSize
  else
    chooseChild (lowerLevelLfb s (level - 1) (2 * index))
      (lowerLevelLfb s (level - 1) (2 * index + 1)) requestedSize

/-- The bit-level initialization in the `FreeSolid` branch of
`preSplitCheck` when the children live in bit levels
(`level == kBitLevelCount`):

    count_t bitCount = count_t(1) << level;
    index <<= level;
    clearBits(level0, index, bitCount);
    for (uint8_t i = 1; i < level; ++i) {
        index >>= 1; bitCount >>= 1;
        setBits(levels[i], index, bitCount);
    }
-/
def initBitLevels (s : TreeState) (level index : Nat) : TreeState :=
  let s1 := writeBits s 0 (index * 2 ^ level) (2 ^ level) false
  (List.range' 1 (level - 1)).foldl
    (fun t i => writeBits t i (index * 2 ^ (level - i)) (2 ^ (level - i)) true) s1

/-- Embeds `preSplitCheck(level, index)`: bit levels clear the solid bit; byte
levels split a `FreeSolid` node, initializing the children (child bytes
to `FreeSolid`, or the bit levels underneath at the boundary) and
re-tagging the node `PartialBit + (level - 1)`. -/
def preSplitCheck (s : TreeState) (level index : Nat) : TreeState :=
  if level < kBitLevelCount then setBitLevelValue s level index false
  else if s.bytes level index = freeSolid then
    let s1 :=
      if kBitLevelCount < level then
        writeByte (writeByte s (level - 1) (2 * index) freeSolid) (level - 1) (2 * index + 1) freeSolid
      else
        initBitLevels s level index
    writeByte s1 level index (partialBit + (level - 1))
  else s

/-- Embeds `updateLargestFreeBlock(level, index)`: bit levels return silently;
byte levels recompute both children's largest free spans and rewrite
the node as `FullFragmented` or `PartialBit | log2(round_down(max))`. -/
def updateLargestFreeBlock (s : TreeState) (level index : Nat) : TreeState :=
  if level < kBitLevelCount then s
  else
    let leftLfb :=
      if level = kBitLevelCount then lowerLevelLfb s (level - 1) (2 * index)
      else byteLevelLfb s (level - 1) (2 * index)
    let rightLfb :=
      if level = kBitLevelCount then lowerLevelLfb s (level - 1) (2 * index + 1)
      else byteLevelLfb s (level - 1) (2 * index + 1)
    if leftLfb + rightLfb = 0 then writeByte s level index fullFragmented
    else writeByte s level index (partialBit + p2roundDownLog (max leftLfb rightLfb))

/-- Embeds `allocAtLevel(level, index, basicBlocks)`: returns the basic-block
index of the allocation (the C++ returns
`data + (index << (level + basicBlockSize.log2()))`) and the updated
state.  Exact fit marks the node `FullSolid` (byte levels) or sets the
level-0 bits plus the solid bit (bit levels); otherwise split, pick a
child, recurse and refresh the node's largest-free-span.  Valid calls
always have `reqLog ≤ level`, so the level-0 case is an exact fit. -/
def allocAtLevel (s : TreeState) : Nat → Nat → Nat → Nat × TreeState
  | 0, index, _reqLog => (index, setUsedBits s index 0)
  | l + 1, index, reqLog =>
    if reqLog = l + 1 then
      if kBitLevelCount ≤ l + 1 then
        (index * 2 ^ (l + 1), writeByte s (l + 1) index fullSolid)
      else
        (index * 2 ^ (l + 1), setSolidBit (setUsedBits s (index * 2 ^ (l + 1)) reqLog) (l + 1) index)
    else
      let s1 := preSplitCheck s (l + 1) index
      let c := selectFittingChild s1 (l + 1) index (2 ^ reqLog)
      let (ptr, s2) := allocAtLevel s1 l (2 * index + c) reqLog
      (ptr, updateLargestFreeBlock s2 (l + 1) index)

/-- Count the set bits of the level-0 array over `[start, start + n)`. -/
def popcountRange (f : Nat → Bool) (start n : Nat) : Nat :=
  (List.range n).countP (fun k => f (start + k))

/-- Embeds `countUsedBlocks(level, levelIndex)`: bit levels count level-0 bits
under the subtree; byte levels count `FullSolid` nodes whole and
recurse into fragmented (`PartialBit`/`FullFragmented`) ones. -/
def countUsedBlocks (s : TreeState) : Nat → Nat → Nat
  | 0, index => popcountRange (s.bits 0) index 1
  | l + 1, index =>
    if l + 1 < kBitLevelCount then
      popcountRange (s.bits 0) (index * 2 ^ (l + 1)) (2 ^ (l + 1))
    else
      let v := s.bytes (l + 1) index
      if v < partialBit then
        if Nat.testBit v 1 then 2 ^ (l + 1) else 0
      else
        countUsedBlocks s l (2 * index) + countUsedBlocks s l (2 * index + 1)

/-- Construction parameters (`LeanTreeAllocator::Parameters`), all as
logs: `basicBlockSize`, `totalSize`, `maxAllocSize` are `Power2`,
`a` an `align`. -/
structure Params where
  bbsLog : Nat
  totalLog : Nat
  maxAllocLog : Nat
  alignLog : Nat
  deriving Repr, DecidableEq

/-- Embeds `validateAndCorrectParams`: clamp `basicBlockSize ≥ 4`, force
`totalSize` and `maxAllocSize` at least `basicBlockSize << 6`, cap
`maxAllocSize` at `totalSize`, raise the alignment to system. -/
def validateAndCorrectParams (p : Params) : Params :=
  let bbs := max p.bbsLog 2
  let minTotal := bbs + 6
  let total := max p.totalLog minTotal
  let ma := min (max p.maxAllocLog minTotal) total
  ⟨bbs, total, ma, max p.alignLog systemAlignLog⟩

/-- Embeds `levelCount`: `(maxAllocSize / basicBlockSize).log2() + 1`
(`Power2` division subtracts logs, saturating at 0). -/
def levelCount (p : Params) : Nat := p2divLog p.maxAllocLog p.bbsLog + 1

/-- The bit-level loop of `calculateLevelsTotalSize`
(`bitLevelsAlign = align::of<unsigned>`, 4 bytes): iterations left and
the running `curLevelSize`. -/
def bitLevelsLoop : Nat → Nat → Nat
  | 0, _ => 0
  | n + 1, cur =>
    let cur' := max cur 1
    alignRoundUp 2 cur' + bitLevelsLoop n (cur' / 2)

/-- The byte-level loop of `calculateLevelsTotalSize`
(`upperLevelsAlign = align::of<uint8_t>`, 1 byte). -/
def upperLevelsLoop : Nat → Nat → Nat
  | 0, _ => 0
  | n + 1, cur =>
    let cur' := max cur 1
    cur' + upperLevelsLoop n (cur' / 2)

/-- Embeds `calculateLevelsTotalSize(totalBasicBlocks, levels)`: the bit-level
loop starts at `totalBasicBlocks.value() / 8` and runs `kBitLevelCount`
times; the byte-level loop starts at `totalBasicBlocks.value() >> 5`
and covers the remaining levels. -/
def calculateLevelsTotalSize (tbbValue levels : Nat) : Nat :=
  bitLevelsLoop kBitLevelCount (tbbValue / 8) +
    upperLevelsLoop (levels - kBitLevelCount) (tbbValue / 2 ^ kBitLevelCount)

/-- Embeds `metaDataSize(params, levels, totalBasicBlocks, headerSize)`:
header plus level-pointer table (`sizeof(uint8_t*) * levels`) plus the
level storage, each rounded up to `kHeaderAlign = align::system()`. -/
def metaDataSize (levels tbbValue headerSize : Nat) : Nat :=
  alignRoundUp systemAlignLog headerSize + alignRoundUp systemAlignLog (8 * levels) +
    alignRoundUp systemAlignLog (calculateLevelsTotalSize tbbValue levels)

/-- Embeds `initTopLevel`: memset the topmost byte-level row (one entry per
top block) to `FreeSolid`.  Everything else keeps whatever the backing
allocator's raw memory held. -/
def initTopLevel (g : TreeState) (topLevel topBlocks : Nat) : TreeState :=
  { g with bytes := fun l i => if l = topLevel ∧ i < topBlocks then freeSolid else g.bytes l i }

/-- The stats fields relevant to the conservation invariant
(`m_stats.bytesUsed`, `m_stats.metaDataSize`). -/
structure Stats where
  bytesUsed : Nat
  metaDataSize : Nat
  deriving Repr, DecidableEq

/-- Embeds `allocMetadata(size)`:

    const Power2 correctedSize = Power2::round_up(size);
    const Power2 bytes = std::max(correctedSize, params.basicBlockSize);
    const Power2 basicBlocks = bytes / params.basicBlockSize;
    uint8_t* buffer = allocAtLevel(nLevels - 1, 0, basicBlocks);
    m_stats.metaDataSize = correctedSize.value();

Returns the updated tree and the recorded `metaDataSize`. -/
def allocMetadata (s : TreeState) (p : Params) (size : Nat) : TreeState × Nat :=
  let correctedLog := p2roundUpLog size
  let nLevels := levelCount p
  let bytesLog := max correctedLog p.bbsLog
  let basicBlocksLog := p2divLog bytesLog p.bbsLog
  ((allocAtLevel s (nLevels - 1) 0 basicBlocksLog).2, 2 ^ correctedLog)

/-- The `LeanTreeAllocator` constructor on raw memory content `g`:
correct the parameters, compute the layout, initialize the top level
and mark the metadata extent allocated.  `stats.bytesUsed` starts at 0;
`stats.metaDataSize` is what `allocMetadata` recorded. -/
def construct (g : TreeState) (p0 : Params) (headerSize : Nat) : TreeState × Params × Stats :=
  let p := validateAndCorrectParams p0
  let nLevels := levelCount p
  let tbbLog := p.totalLog - p.bbsLog
  let metaSize := metaDataSize nLevels (2 ^ tbbLog) headerSize
  let s0 := initTopLevel g (nLevels - 1) (2 ^ (p.totalLog - p.maxAllocLog))
  let r := allocMetadata s0 p metaSize
  (r.1, p, ⟨0, r.2⟩)

/-- The total used-block count of `validateStats`: sum
`countUsedBlocks(topLevel, i)` over the top-level entries. -/
def countUsedTotal (s : TreeState) (p : Params) : Nat :=
  (List.range (2 ^ (p.totalLog - p.maxAllocLog))).foldl
    (fun acc i => acc + countUsedBlocks s (levelCount p - 1) i) 0

/-- Embeds `validateStats`: `usedBlocksCount * basicBlockSize` must equal
`m_stats.bytesUsed + m_stats.metaDataSize`. -/
def validateStats (s : TreeState) (p : Params) (st : Stats) : Bool :=
  countUsedTotal s p * 2 ^ p.bbsLog == st.bytesUsed + st.metaDataSize

/-- The distinct `InvalidFree` conditions raised by
`LeanTreeAllocator::free`. -/
inductive LTFreeError where
  | outsideManagedArea
  | releaseMetadata
  | badAlignment
  deriving Repr, DecidableEq

/-- The validation prefix of `LeanTreeAllocator::free(void*)`, before
`freeAtBlock` touches the tree:

    if (blockPtr < m_header->data) error("... outside managed area");
    const size_t offset = blockPtr - m_header->data;
    if (offset < m_stats.metaDataSize) error("... release metadata");
    if (offset > params.totalSize.value()) error("... outside managed area");
    if (offset % params.basicBlockSize != 0) error("... bad alignment");

`none` means the pointer proceeds into `freeAtBlock`. -/
def freeValidate (base meta total bbs ptr : Nat) : Option LTFreeError :=
  if ptr < base then some .outsideManagedArea
  else
    let offset := ptr - base
    if offset < meta then some .releaseMetadata
    else if total < offset then some .outsideManagedArea
    else if offset % bbs ≠ 0 then some .badAlignment
    else none

/-- Modelled from the spec: the rejection condition §4.4.4/§8.9 states
for `free` — `p < base`, or `p ≥ base + total_size`, or `(p - base)`
not a multiple of `basic_block_size`, or `(p - base) < metadata_size` —
for comparison with `freeValidate`. -/
def specFreeRejects (base meta total bbs ptr : Nat) : Bool :=
  decide (ptr < base) || decide (base + total ≤ ptr) ||
    decide ((ptr - base) % bbs ≠ 0) || decide (ptr - base < meta)

/-- Embeds `LeanTreeAllocator::free(void*)` up to the hand-off into the tree:
validation errors are fatal; a pointer that passes validation reaches
`freeAtBlock(offset / basicBlockSize, topLevel)`, and the basic-block
index it receives is returned here. -/
def freeCall (base meta total bbs ptr : Nat) : Except LTFreeError Nat :=
  match freeValidate base meta total bbs ptr with
  | some e => .error e
  | none => .ok ((ptr - base) / bbs)

end LeanTree

/-! ## The `free` dispatcher -/

namespace Arena

/-- What `ArenaAllocator::free(void*)` does with a pointer. -/
inductive FreeAction where
  | absorbed
  | forwardedToFallback (ptr : Nat)
  deriving Repr, DecidableEq

/-- Embeds `ArenaAllocator::free(void*)`: a pointer inside the buffer is left
alone (arena memory is reclaimed only at destruction); anything else is
forwarded to the fallback allocator.  The arena state is never
modified. -/
def free (s : State) (ptr : Nat) : FreeAction :=
  if s.base ≤ ptr ∧ ptr < s.base + s.size then .absorbed
  else .forwardedToFallback ptr

end Arena

/-- Modelled from the spec: the public `free` dispatcher declared in
`allocator.h` is not under `src/` (only its callers and the allocator
implementations are).  Per §3 "`free(null)` is a no-op at the
dispatcher level" and §7 "(b) `free(null)` is silently absorbed before
dispatch": a null pointer (`none`) never invokes the underlying
allocator's `free`; a non-null pointer is passed through. -/
def dispatchFree {α : Type} (call : Nat → α) (p : Option Nat) : Option α :=
  match p with
  | none => none
  | some q => some (call q)

/-! ## Helper lemmas -/

/-- The power `2^k` exceeds 1024 exactly above `k = 10`. -/
theorem pow2_gt_1024_iff (k : Nat) : 1024 < 2 ^ k ↔ 10 < k := by
  rw [show (1024 : Nat) = 2 ^ 10 by norm_num]
  exact Nat.pow_lt_pow_iff_right one_lt_two

/-- Rounding up to an 8-byte alignment adds at most 7. -/
theorem alignRoundUp_three_le (h : Nat) : alignRoundUp 3 h ≤ h + 7 := by
  unfold alignRoundUp alignRoundDown
  omega

/-- The log `Power2::round_up` assigns to a value that fits under `2^k`
is at most `k`. -/
theorem p2roundUpLog_le {x k : Nat} (hx : x ≤ 2 ^ k) : p2roundUpLog x ≤ k := by
  unfold p2roundUpLog
  split_ifs with h1
  · exact Nat.zero_le k
  · have hne : x - 1 ≠ 0 := by omega
    have : x - 1 < 2 ^ k := by omega
    have := (Nat.log2_lt hne).mpr this
    omega

/-! ## Claim theorems -/

/-- C10: `ArenaAllocator::alloc` is a frame-preserving delegation when
the request does not fit: if `padding + corrected` exceeds the
remaining capacity the call is forwarded to the fallback with the arena
state (in particular `m_usedBytes`) exactly as before; otherwise the
request is served from the buffer and `m_usedBytes` advances by
`padding + corrected`. -/
theorem arena_alloc_frame (s : Arena.State) (bytes alignLog : Nat) :
    (s.size - s.used < alignPadding alignLog (s.base + s.used) + alignRoundUp alignLog bytes →
      Arena.alloc s bytes alignLog =
        (Arena.AllocOutcome.delegated (alignRoundUp alignLog bytes) alignLog, s)) ∧
    (alignPadding alignLog (s.base + s.used) + alignRoundUp alignLog bytes ≤ s.size - s.used →
      Arena.alloc s bytes alignLog =
        (Arena.AllocOutcome.fromBuffer (s.base + s.used + alignPadding alignLog (s.base + s.used))
            (alignRoundUp alignLog bytes),
          { s with used :=
              s.used + (alignPadding alignLog (s.base + s.used) + alignRoundUp alignLog bytes) })) := by
  constructor
  · intro h
    unfold Arena.alloc
    rw [if_pos (by omega)]
  · intro h
    unfold Arena.alloc
    rw [if_neg (by omega)]

/-- C10 witness: an arena of 1024 bytes with 900 used delegates a
200-byte request untouched. -/
theorem arena_alloc_frame_witness :
    Arena.alloc ⟨1000, 1024, 900⟩ 200 3 = (Arena.AllocOutcome.delegated 200 3, ⟨1000, 1024, 900⟩) :=
  (arena_alloc_frame ⟨1000, 1024, 900⟩ 200 3).1 (by decide)

/-- C5 counterexample: the claim says any request with alignment above
128 bytes returns `{null, 0}`, but an alignment of `2^8 = 256` bytes
passes both limit checks of `StackAllocator::alloc` untouched
(`Limits::maxAlign` is `align::system() << 7` = 1024 bytes). -/
theorem stack_limits_counterexample :
    StackAlloc.allocRejected 64 8 = false ∧ 128 < 2 ^ 8 := by decide

/-- C5 (amended): `StackAllocator::alloc(bytes, a)` is rejected by the
two limit checks exactly when the alignment exceeds
`align::system() << 7` (1024 bytes on an LP64 target) or `bytes`
exceeds `2^31` (2 GiB); requests at or below both limits pass. -/
theorem stack_limits_amended (bytes alignLog : Nat) :
    StackAlloc.allocRejected bytes alignLog = true ↔ (1024 < 2 ^ alignLog ∨ 2 ^ 31 < bytes) := by
  unfold StackAlloc.allocRejected StackAlloc.maxAlignLog StackAlloc.maxAllocSize systemAlignLog
  rw [Bool.or_eq_true, decide_eq_true_iff, decide_eq_true_iff, pow2_gt_1024_iff]
  norm_num

/-- C4: the size `StackAllocator::pushNewBlock` requests from the
backing allocator at a concrete reachable configuration
(`minBlockSize = 256`, `maxBlockSize = 1 MiB`, 4096 bytes of previous
total memory, a 64-byte corrected request with 32 bytes of block
overhead): the code asks for 256 bytes, while the documented policy
`clamp(max(min_block_size, total_memory, corrected + overhead), ...)`
yields 4096 — the two clamp steps are dead stores. -/
theorem stack_new_block_size_bug :
    StackAlloc.pushNewBlockRequest 256 1048576 4096 64 3 = 256 ∧
    StackAlloc.specNewBlockSize 256 1048576 4096 (64 + 24 + 8) = 4096 ∧ (256 : Nat) ≠ 4096 := by
  decide

/-- C2: with the default geometry (`basicBlockSize = 16`,
`totalSize = 64 KiB`, metadata of 2 KiB) and the managed region at
address 4096, the one-past-the-end pointer `base + totalSize` passes
every validation check of `LeanTreeAllocator::free` (the code compares
`offset > totalSize`, not `offset >= totalSize`) and reaches
`freeAtBlock`, while the claim requires it to raise `InvalidFree`
before any tree state is modified. -/
theorem lt_free_boundary_bug :
    LeanTree.freeValidate 4096 2048 65536 16 (4096 + 65536) = none ∧
    LeanTree.specFreeRejects 4096 2048 65536 16 (4096 + 65536) = true := by
  decide

/-- C3: the child comparison of `selectFittingChild` (given the two
children's largest free spans and the requested block count, with at
least one child fitting) picks a fitting child of minimal largest free
span, and strictly prefers the left child on ties: the right child is
chosen only when it fits and is strictly smaller than a fitting left
child. -/
theorem select_fitting_child_best_fit (l r req : Nat) (hfit : req ≤ l ∨ req ≤ r) :
    (LeanTree.chooseChild l r req = 0 ∨ LeanTree.chooseChild l r req = 1) ∧
    (LeanTree.chooseChild l r req = 0 → req ≤ l ∧ (req ≤ r → l ≤ r)) ∧
    (LeanTree.chooseChild l r req = 1 → req ≤ r ∧ (req ≤ l → r < l)) := by
  unfold LeanTree.chooseChild
  split_ifs with h1 h2
  · exact ⟨Or.inl rfl, fun _ => ⟨h1.2, fun _ => h1.1⟩, False.elim⟩
  · exact ⟨Or.inl rfl, fun _ => ⟨by omega, fun _ => by omega⟩, False.elim⟩
  · exact ⟨Or.inr rfl, False.elim, fun _ => ⟨by omega, fun _ => by omega⟩⟩

/-- C3 witness: spans `(4, 2)` with a request of 2 select a child. -/
theorem select_fitting_child_best_fit_witness :
    LeanTree.chooseChild 4 2 2 = 0 ∨ LeanTree.chooseChild 4 2 2 = 1 :=
  (select_fitting_child_best_fit 4 2 2 (Or.inr (by decide))).1

/-- C6 counterexample: a block of capacity 64 whose top (and only)
chunk starts at offset 0 with 8-byte alignment and currently spans 8
bytes.  `tryExpand(10, top)` grants 10 bytes (the code rounds only
`available + current` down to the alignment), while the claim's
formula — the whole `min` rounded down to the chunk alignment — yields
8, i.e. no growth and a result of 0. -/
theorem stack_try_expand_counterexample :
    (StackAlloc.blockTryExpand ⟨1000, 64, 8, [StackAlloc.chunkMk 0 3]⟩ 10 0).1 = 10 ∧
    StackAlloc.specTryExpandResult ⟨1000, 64, 8, [StackAlloc.chunkMk 0 3]⟩ 10 = 0 ∧
    (10 : Nat) ≠ 0 := by
  decide

/-- C6 (amended): for a pointer addressing the top chunk of a block,
`tryExpand` computes the candidate
`min(round_down(available + current, top.alignment), max(new_bytes, current))`
— the rounding applies to the maximal aligned chunk capacity, not to
the final minimum — extends `dataBytesUsed` and returns the candidate
exactly when it exceeds the current size, returns 0 otherwise, and
never shrinks the chunk. -/
theorem stack_try_expand_amended (base capacity dataBytesUsed top : Nat) (rest : List Nat)
    (bytes : Nat) :
    (StackAlloc.blockTryExpand ⟨base, capacity, dataBytesUsed, top :: rest⟩ bytes
        (StackAlloc.chunkOffset top) =
      (let current := dataBytesUsed - StackAlloc.chunkOffset top
       let cand := min
         (alignRoundDown (StackAlloc.chunkAlignLog top)
           (StackAlloc.freeBytes ⟨base, capacity, dataBytesUsed, top :: rest⟩ + current))
         (max bytes current)
       if current < cand then
         (cand, ⟨base, capacity, dataBytesUsed + (cand - current), top :: rest⟩)
       else (0, ⟨base, capacity, dataBytesUsed, top :: rest⟩))) ∧
    dataBytesUsed ≤ (StackAlloc.blockTryExpand ⟨base, capacity, dataBytesUsed, top :: rest⟩ bytes
        (StackAlloc.chunkOffset top)).2.dataBytesUsed := by
  constructor
  · show StackAlloc.blockTryExpand _ _ _ = _
    unfold StackAlloc.blockTryExpand
    simp only [ne_eq, not_true_eq_false, if_false, ite_not]
  · unfold StackAlloc.blockTryExpand
    simp only [ne_eq, not_true_eq_false, if_false, ite_not]
    split
    · simp
    · simp

/-- Looking up the assigned key after `bmap::operator[] = v` finds `v`. -/
theorem lookup_assignKey_self (m : Sink.AllocMap) (k : Sink.Key) (v : Nat) :
    Sink.lookupKey (Sink.assignKey m k v) k = some v := by
  induction m with
  | nil => simp [Sink.assignKey, Sink.lookupKey]
  | cons kv rest ih =>
    obtain ⟨k', v'⟩ := kv
    by_cases h : k' = k
    · simp [Sink.assignKey, Sink.lookupKey, h]
    · simp [Sink.assignKey, Sink.lookupKey, h, ih]

/-- Assigning `bmap::operator[] = v` leaves every other key's entry unchanged. -/
theorem lookup_assignKey_other (m : Sink.AllocMap) (k k' : Sink.Key) (v : Nat) (h : k' ≠ k) :
    Sink.lookupKey (Sink.assignKey m k v) k' = Sink.lookupKey m k' := by
  induction m with
  | nil => simp [Sink.assignKey, Sink.lookupKey, Ne.symm h]
  | cons kv rest ih =>
    obtain ⟨k'', v''⟩ := kv
    by_cases hk : k'' = k
    · subst hk
      simp [Sink.assignKey, Sink.lookupKey, Ne.symm h]
    · by_cases hk' : k'' = k'
      · subst hk'
        simp [Sink.assignKey, Sink.lookupKey, hk]
      · simp [Sink.assignKey, Sink.lookupKey, hk, hk', ih]

/-- C7 counterexample: a `try_expand` notification with requested size
64 and granted size 0 on a tracked entry of recorded size 16.  The
claim says a granted size of 0 leaves the mapping completely unchanged;
`DebugLogSink::tryExpand` only returns early on `requestedBytes == 0`
and overwrites the entry's recorded size with 0. -/
theorem sink_try_expand_counterexample :
    Sink.sinkTryExpand [((1, 100), 16)] 1 100 64 0 = [((1, 100), 0)] ∧
    ([((1, 100), 0)] : Sink.AllocMap) ≠ [((1, 100), 16)] := by
  decide

/-- C7 (amended): `DebugLogSink::tryExpand` updates the
`(allocator, pointer)` entry's recorded size to the granted size
exactly when the *requested* size is non-zero (even when the granted
size is 0), and leaves the mapping completely unchanged when the
requested size is 0. -/
theorem sink_try_expand_amended (m : Sink.AllocMap) (allocId buffer requested granted : Nat) :
    (requested = 0 → Sink.sinkTryExpand m allocId buffer requested granted = m) ∧
    (requested ≠ 0 →
      Sink.lookupKey (Sink.sinkTryExpand m allocId buffer requested granted) (allocId, buffer) =
          some granted ∧
        ∀ k, k ≠ (allocId, buffer) →
          Sink.lookupKey (Sink.sinkTryExpand m allocId buffer requested granted) k =
            Sink.lookupKey m k) := by
  constructor
  · intro h
    simp [Sink.sinkTryExpand, h]
  · intro h
    refine ⟨?_, fun k hk => ?_⟩
    · simp [Sink.sinkTryExpand, h, lookup_assignKey_self]
    · simp [Sink.sinkTryExpand, h, lookup_assignKey_other m _ k granted hk]

/-- C7 witness: a non-zero request of 64 granted 24 updates the
entry. -/
theorem sink_try_expand_amended_witness :
    Sink.lookupKey (Sink.sinkTryExpand [((1, 100), 16)] 1 100 64 24) (1, 100) = some 24 :=
  ((sink_try_expand_amended [((1, 100), 16)] 1 100 64 24).2 (by decide)).1

/-- C8: a null pointer handed to the `free` dispatcher is absorbed
before it can reach any allocator's `free` logic: for the stack, arena
and buddy-tree allocators alike, dispatching `free(null)` invokes
nothing (so no `InvalidFree` can be raised) and the allocator state is
untouched. -/
theorem dispatch_free_null_noop (blocks : List StackAlloc.Block) (ar : Arena.State)
    (base meta total bbs : Nat) :
    dispatchFree (StackAlloc.stackFree blocks) none = none ∧
    dispatchFree (Arena.free ar) none = none ∧
    dispatchFree (LeanTree.freeCall base meta total bbs) none = none :=
  ⟨rfl, rfl, rfl⟩

/-- With the corrected parameters `basicBlockSize = 2^20`,
`totalSize = maxAllocSize = 2^26` there are 7 levels and 64 basic
blocks; the per-level metadata storage is 27 bytes, the level table 56,
so the metadata size is `round_up8(headerSize) + 88`. -/
theorem metaDataSize_seven_levels (h : Nat) :
    LeanTree.metaDataSize 7 64 h = alignRoundUp 3 h + 88 := by
  have h56 : alignRoundUp 3 (8 * 7) = 56 := by decide
  have h27 : alignRoundUp 3 (LeanTree.calculateLevelsTotalSize 64 7) = 32 := by decide
  unfold LeanTree.metaDataSize systemAlignLog
  rw [h56, h27]

/-- The metadata allocation with `basicBlockSize = 2^20` marks exactly
one basic block used (computed over zeroed backing memory). -/
theorem countUsedTotal_metadata_one : LeanTree.countUsedTotal
    (LeanTree.allocAtLevel (LeanTree.initTopLevel LeanTree.zeroState 6 1) 6 0 0).2
    ⟨20, 26, 26, 3⟩ = 1 := by decide

/-- C1: level-0 conservation fails right at construction for the valid
(unclamped) parameters `basicBlockSize = 2^20`,
`totalSize = maxAllocSize = 2^26`: `allocMetadata` records
`Power2::round_up(metaSize)` (at most `2^13` for any header size up to
4096 bytes) in `stats.metaDataSize` but marks a whole basic block
(`2^20` bytes) allocated, so the used-block count times the basic block
size differs from `bytes_used + metadata_size` already for the empty
operation sequence — the code's own `validateStats` fails. -/
theorem lt_conservation_bug (h : Nat) (h8 : 8 ≤ h) (h4096 : h ≤ 4096) :
    LeanTree.countUsedTotal (LeanTree.construct LeanTree.zeroState ⟨20, 26, 26, 3⟩ h).1
        (LeanTree.construct LeanTree.zeroState ⟨20, 26, 26, 3⟩ h).2.1 * 2 ^ 20 ≠
      (LeanTree.construct LeanTree.zeroState ⟨20, 26, 26, 3⟩ h).2.2.bytesUsed +
        (LeanTree.construct LeanTree.zeroState ⟨20, 26, 26, 3⟩ h).2.2.metaDataSize := by
  have hms : LeanTree.metaDataSize 7 64 h = alignRoundUp 3 h + 88 := metaDataSize_seven_levels h
  have hb : LeanTree.metaDataSize 7 64 h ≤ 2 ^ 13 := by
    have := alignRoundUp_three_le h
    rw [hms]
    norm_num
    omega
  have hlog : p2roundUpLog (LeanTree.metaDataSize 7 64 h) ≤ 13 := p2roundUpLog_le hb
  have hred : LeanTree.construct LeanTree.zeroState ⟨20, 26, 26, 3⟩ h =
      ((LeanTree.allocAtLevel (LeanTree.initTopLevel LeanTree.zeroState 6 1) 6 0
          (p2divLog (max (p2roundUpLog (LeanTree.metaDataSize 7 64 h)) 20) 20)).2,
        ⟨20, 26, 26, 3⟩, ⟨0, 2 ^ p2roundUpLog (LeanTree.metaDataSize 7 64 h)⟩) := rfl
  rw [hred]
  have hbl : p2divLog (max (p2roundUpLog (LeanTree.metaDataSize 7 64 h)) 20) 20 = 0 := by
    unfold p2divLog
    omega
  rw [hbl]
  show LeanTree.countUsedTotal _ _ * 2 ^ 20 ≠ 0 + 2 ^ _
  rw [countUsedTotal_metadata_one]
  have hpow : (2 : Nat) ^ p2roundUpLog (LeanTree.metaDataSize 7 64 h) ≤ 2 ^ 13 :=
    Nat.pow_le_pow_right (by norm_num) hlog
  have e13 : (2 : Nat) ^ 13 = 8192 := by norm_num
  have e20 : (2 : Nat) ^ 20 = 1048576 := by norm_num
  omega

/-- C1 witness: the mismatch at the LP64 header size
`sizeof(SHeader) = 24`. -/
theorem lt_conservation_bug_witness :
    LeanTree.countUsedTotal (LeanTree.construct LeanTree.zeroState ⟨20, 26, 26, 3⟩ 24).1
        (LeanTree.construct LeanTree.zeroState ⟨20, 26, 26, 3⟩ 24).2.1 * 2 ^ 20 ≠
      (LeanTree.construct LeanTree.zeroState ⟨20, 26, 26, 3⟩ 24).2.2.bytesUsed +
        (LeanTree.construct LeanTree.zeroState ⟨20, 26, 26, 3⟩ 24).2.2.metaDataSize :=
  lt_conservation_bug 24 (by decide) (by decide)

/-! ## The default-allocator stack: reaping lemmas and invariant -/

namespace DefaultStack

/-- Reaping only shortens the stack. -/
theorem reap_length_le (s : Stack) : (reap s).length ≤ s.length := by
  induction s with
  | nil => simp [reap]
  | cons x rest ih =>
    simp only [reap]
    split
    · simp
    · simpa using Nat.succ_le_succ ih

/-- The reaped stack is a prefix: surviving slots are unchanged. -/
theorem reap_getElem? (s : Stack) (i : Nat) (hi : i < (reap s).length) :
    (reap s)[i]? = s[i]? := by
  induction s generalizing i with
  | nil => simp [reap] at hi
  | cons x rest ih =>
    simp only [reap] at hi ⊢
    by_cases hc : reap rest = [] ∧ x = none
    · rw [if_pos hc] at hi
      simp at hi
    · rw [if_neg hc] at hi ⊢
      cases i with
      | zero => simp
      | succ n =>
        simp only [List.getElem?_cons_succ]
        exact ih n (by simpa using hi)

/-- Every slot removed by reaping held a null pointer. -/
theorem reap_dropped (s : Stack) (i : Nat) (h1 : (reap s).length ≤ i) (h2 : i < s.length) :
    s[i]? = some none := by
  induction s generalizing i with
  | nil => simp at h2
  | cons x rest ih =>
    simp only [reap] at h1
    by_cases hc : reap rest = [] ∧ x = none
    · cases i with
      | zero => simp [hc.2]
      | succ n =>
        simp only [List.getElem?_cons_succ]
        exact ih n (by simp [hc.1]) (by simpa using h2)
    · rw [if_neg hc] at h1
      simp only [List.length_cons] at h1
      cases i with
      | zero => omega
      | succ n =>
        simp only [List.getElem?_cons_succ]
        exact ih n (by omega) (by simpa using h2)

/-- After reaping, the stack is empty or its back is non-null. -/
theorem reap_last (s : Stack) : reap s = [] ∨ ∃ x, (reap s).getLast? = some (some x) := by
  induction s with
  | nil => left; rfl
  | cons x rest ih =>
    simp only [reap]
    by_cases hc : reap rest = [] ∧ x = none
    · rw [if_pos hc]
      left; rfl
    · rw [if_neg hc]
      right
      rcases ih with h0 | ⟨y, hy⟩
      · rw [h0]
        have hx : x ≠ none := fun hxn => hc ⟨h0, hxn⟩
        obtain ⟨a, rfl⟩ := Option.ne_none_iff_exists'.mp hx
        exact ⟨a, rfl⟩
      · have hne : reap rest ≠ [] := by
          intro h
          rw [h] at hy
          simp at hy
        obtain ⟨b, L, hbl⟩ := List.exists_cons_of_ne_nil hne
        refine ⟨y, ?_⟩
        rw [hbl] at hy ⊢
        rw [List.getLast?_cons_cons]
        exact hy

/-- The invariant tying a world reached from start stack `s0` back to
`s0`: live holders own in-range non-null slots; every non-null slot is
either a live holder's or an untouched slot of `s0`; slots of `s0`
already popped were null; slots no live holder owns still agree with
`s0`; everything in `s0` at or above a live holder's position was null;
and the stack is empty or ends in a non-null slot. -/
structure Inv (s0 : Stack) (w : World) : Prop where
  live_mem : ∀ p a, (p, a) ∈ w.live → p < w.stack.length ∧ w.stack[p]? = some (some a)
  stack_src : ∀ i x, w.stack[i]? = some (some x) → (∃ a, (i, a) ∈ w.live) ∨ s0[i]? = some (some x)
  popped_none : ∀ i, w.stack.length ≤ i → i < s0.length → s0[i]? = some none
  frame : ∀ i, i < w.stack.length → i < s0.length → (∀ a, (i, a) ∉ w.live) → w.stack[i]? = s0[i]?
  live_above : ∀ p a, (p, a) ∈ w.live → ∀ j, p ≤ j → j < s0.length → s0[j]? = some none
  tail_ok : w.stack = [] ∨ ∃ x, w.stack.getLast? = some (some x)

/-- The invariant holds at a start stack that is empty or has a
non-null back (every stack reachable through `AllocatorHolder` is). -/
theorem inv_init (s0 : Stack) (hs0 : s0 = [] ∨ ∃ a, s0.getLast? = some (some a)) :
    Inv s0 ⟨s0, []⟩ where
  live_mem := by simp
  stack_src := fun _ _ h => Or.inr h
  popped_none := fun i h1 h2 => absurd h2 (by dsimp only at h1; omega)
  frame := fun _ _ _ _ => rfl
  live_above := by simp
  tail_ok := hs0

/-- A scope-guard construction preserves the invariant. -/
theorem inv_push (s0 : Stack) (w : World) (a : Nat) (hinv : Inv s0 w) :
    Inv s0 ⟨w.stack ++ [some a], (w.stack.length, a) :: w.live⟩ := by
  constructor
  · intro p b hp
    rcases List.mem_cons.mp hp with heq | hmem
    · obtain ⟨hp1, hp2⟩ := Prod.mk.injEq .. ▸ heq
      subst hp1; subst hp2
      refine ⟨by simp, ?_⟩
      simp
    · obtain ⟨hlt, hget⟩ := hinv.live_mem p b hmem
      exact ⟨by simp; omega, by rw [List.getElem?_append_left hlt]; exact hget⟩
  · intro i x h
    by_cases hi : i < w.stack.length
    · rw [List.getElem?_append_left hi] at h
      rcases hinv.stack_src i x h with ⟨c, hc⟩ | hs
      · exact Or.inl ⟨c, List.mem_cons_of_mem _ hc⟩
      · exact Or.inr hs
    · have hi2 : i < w.stack.length + 1 := by
        by_contra hgt
        rw [List.getElem?_eq_none (by simp; omega)] at h
        exact Option.noConfusion h
      have hie : i = w.stack.length := by omega
      subst hie
      rw [List.getElem?_concat_length] at h
      have hxa : x = a := by
        have := Option.some.inj (Option.some.inj h)
        omega
      subst hxa
      exact Or.inl ⟨x, List.mem_cons_self _ _⟩
  · intro i h1 h2
    exact hinv.popped_none i (by simp at h1; omega) h2
  · intro i hi hi0 hnl
    have hne : i ≠ w.stack.length := by
      intro he
      exact hnl a (he ▸ List.mem_cons_self _ _)
    have hlt : i < w.stack.length := by simp at hi; omega
    rw [List.getElem?_append_left hlt]
    exact hinv.frame i hlt hi0 (fun c hc => hnl c (List.mem_cons_of_mem _ hc))
  · intro p b hp j hj hj0
    rcases List.mem_cons.mp hp with heq | hmem
    · obtain ⟨hp1, _⟩ := Prod.mk.injEq .. ▸ heq
      subst hp1
      exact hinv.popped_none j (by omega) hj0
    · exact hinv.live_above p b hmem j hj hj0
  · right
    exact ⟨a, by simp⟩

/-- A scope-guard destruction preserves the invariant. -/
theorem inv_pop (s0 : Stack) (w : World) (p : Nat) (hinv : Inv s0 w)
    (hex : ∃ a, (p, a) ∈ w.live) :
    Inv s0 ⟨holderPop w.stack p, w.live.filter (fun q => q.1 ≠ p)⟩ := by
  obtain ⟨a0, ha0⟩ := hex
  have hplt : p < w.stack.length := (hinv.live_mem p a0 ha0).1
  have hpop : holderPop w.stack p = reap (w.stack.set p none) := by
    unfold holderPop
    rw [if_pos hplt]
  set t := w.stack.set p none with ht
  have htlen : t.length = w.stack.length := by simp [ht]
  have htp : t[p]? = some none := by
    rw [ht]
    exact List.getElem?_set_eq_of_lt none hplt
  have htne : ∀ i, i ≠ p → t[i]? = w.stack[i]? := fun i hi => by
    rw [ht]
    exact List.getElem?_set_ne (fun he => hi he.symm)
  have hmem' : ∀ q b, (q, b) ∈ w.live.filter (fun q => q.1 ≠ p) ↔ (q, b) ∈ w.live ∧ q ≠ p := by
    intro q b
    rw [List.mem_filter]
    simp
  rw [hpop]
  constructor
  · intro q b hq
    dsimp only at hq ⊢
    obtain ⟨hmem, hqp⟩ := (hmem' q b).mp hq
    obtain ⟨hlt, hget⟩ := hinv.live_mem q b hmem
    have htq : t[q]? = some (some b) := by rw [htne q hqp]; exact hget
    have hqr : q < (reap t).length := by
      by_contra hge
      have := reap_dropped t q (by omega) (by omega)
      rw [htq] at this
      exact Option.noConfusion (Option.some.inj this)
    exact ⟨hqr, by rw [reap_getElem? t q hqr]; exact htq⟩
  · intro i x h
    dsimp only at h
    have hir : i < (reap t).length := by
      by_contra hge
      rw [List.getElem?_eq_none (by omega)] at h
      exact Option.noConfusion h
    rw [reap_getElem? t i hir] at h
    have hip : i ≠ p := by
      intro he
      rw [he, htp] at h
      exact Option.noConfusion (Option.some.inj h)
    rw [htne i hip] at h
    rcases hinv.stack_src i x h with ⟨c, hc⟩ | hs
    · exact Or.inl ⟨c, (hmem' i c).mpr ⟨hc, hip⟩⟩
    · exact Or.inr hs
  · intro i h1 h2
    dsimp only at h1
    by_cases hi : i < w.stack.length
    · have hti : t[i]? = some none := reap_dropped t i h1 (by omega)
      by_cases hip : i = p
      · exact hinv.live_above p a0 ha0 i (by omega) h2
      · rw [htne i hip] at hti
        by_cases hl : ∃ c, (i, c) ∈ w.live
        · obtain ⟨c, hc⟩ := hl
          have := (hinv.live_mem i c hc).2
          rw [hti] at this
          exact Option.noConfusion (Option.some.inj this)
        · push_neg at hl
          have := hinv.frame i hi h2 hl
          rw [hti] at this
          exact this.symm
    · exact hinv.popped_none i (by omega) h2
  · intro i hi hi0 hnl
    dsimp only at hi hnl ⊢
    rw [reap_getElem? t i hi]
    by_cases hip : i = p
    · rw [hip, htp]
      exact (hinv.live_above p a0 ha0 p le_rfl (hip ▸ hi0)).symm
    · rw [htne i hip]
      have hilt : i < w.stack.length := by
        have := reap_length_le t
        omega
      refine hinv.frame i hilt hi0 (fun c hc => ?_)
      exact hnl c ((hmem' i c).mpr ⟨hc, hip⟩)
  · intro q b hq j hj hj0
    exact hinv.live_above q b ((hmem' q b).mp hq).1 j hj hj0
  · exact reap_last t

/-- Running any well-formed event sequence preserves the invariant. -/
theorem inv_run (s0 : Stack) (evs : List Ev) (w w' : World) (hinv : Inv s0 w)
    (hrun : run w evs = some w') : Inv s0 w' := by
  induction evs generalizing w with
  | nil =>
    simp only [run] at hrun
    exact Option.some.inj hrun ▸ hinv
  | cons e es ih =>
    simp only [run] at hrun
    cases hstep : step w e with
    | none => rw [hstep] at hrun; exact Option.noConfusion hrun
    | some w1 =>
      rw [hstep] at hrun
      simp only [Option.some_bind] at hrun
      refine ih w1 ?_ hrun
      cases e with
      | push a =>
        simp only [step, holderPush] at hstep
        have := Option.some.inj hstep
        rw [← this]
        exact inv_push s0 w a hinv
      | pop p =>
        simp only [step] at hstep
        split at hstep
        · exact Option.noConfusion hstep
        · rename_i q qs hq
          have hqmem : q ∈ w.live.filter (fun r => r.1 = p) := by
            rw [hq]
            exact List.mem_cons_self _ _
          have hqm := List.mem_filter.mp hqmem
          have hq1 : q.1 = p := by simpa using hqm.2
          have hex : ∃ a, (p, a) ∈ w.live := ⟨q.2, by rw [← hq1]; exact hqm.1⟩
          have := Option.some.inj hstep
          rw [← this]
          exact inv_pop s0 w p hinv hex

end DefaultStack

/-- C9: from any reachable thread-local stack (empty or with a
non-null back), any well-formed interleaving of `AllocatorScope`
constructions and destructions — LIFO or not — that destroys every
scope it constructed leaves `tl_defaultAllocators` exactly as it
started (all tombstones reaped), so `default_allocator()` returns the
same allocator as before the first construction; the strict-LIFO case
is the instance where the event suffix after each push pops only
younger scopes. -/
theorem default_stack_restore (s0 : DefaultStack.Stack) (evs : List DefaultStack.Ev)
    (w : DefaultStack.World)
    (hs0 : s0 = [] ∨ ∃ a, s0.getLast? = some (some a))
    (hrun : DefaultStack.run ⟨s0, []⟩ evs = some w)
    (hlive : w.live = []) :
    w.stack = s0 ∧ DefaultStack.defaultAlloc w.stack = DefaultStack.defaultAlloc s0 := by
  have hinv := DefaultStack.inv_run s0 evs ⟨s0, []⟩ w (DefaultStack.inv_init s0 hs0) hrun
  have hlen_le : w.stack.length ≤ s0.length := by
    by_contra hgt
    push_neg at hgt
    have hne : w.stack ≠ [] := by
      intro h
      rw [h] at hgt
      simp at hgt
    rcases hinv.tail_ok with he | ⟨x, hx⟩
    · exact hne he
    · rw [List.getLast?_eq_getElem? _] at hx
      rcases hinv.stack_src _ x hx with ⟨c, hc⟩ | hs
      · rw [hlive] at hc
        simp at hc
      · rw [List.getElem?_eq_none (by omega)] at hs
        exact Option.noConfusion hs
  have hpoint : ∀ i, i < w.stack.length → w.stack[i]? = s0[i]? := by
    intro i hi
    refine hinv.frame i hi (by omega) (fun c hc => ?_)
    rw [hlive] at hc
    simp at hc
  have hlen_ge : s0.length ≤ w.stack.length := by
    by_contra hlt
    push_neg at hlt
    have hne : s0 ≠ [] := by
      intro h
      rw [h] at hlt
      simp at hlt
    rcases hs0 with h0 | ⟨a, ha⟩
    · exact hne h0
    · rw [List.getLast?_eq_getElem? _] at ha
      have := hinv.popped_none (s0.length - 1) (by omega) (by omega)
      rw [ha] at this
      exact Option.noConfusion (Option.some.inj this)
  have hstack : w.stack = s0 := by
    refine List.ext_getElem? (fun i => ?_)
    by_cases hi : i < w.stack.length
    · exact hpoint i hi
    · rw [List.getElem?_eq_none (by omega), List.getElem?_eq_none (by omega)]
  exact ⟨hstack, by rw [hstack]⟩

/-- C9 witness: starting from `[some 7]`, two scopes destroyed out of
LIFO order (the older first) still restore the stack and the default
allocator. -/
theorem default_stack_restore_witness :
    DefaultStack.World.stack ⟨[some 7], []⟩ = [some 7] ∧
    DefaultStack.defaultAlloc (DefaultStack.World.stack ⟨[some 7], []⟩) =
      DefaultStack.defaultAlloc [some 7] :=
  default_stack_restore [some 7]
    [DefaultStack.Ev.push 1, DefaultStack.Ev.push 2, DefaultStack.Ev.pop 1, DefaultStack.Ev.pop 2]
    ⟨[some 7], []⟩ (Or.inr ⟨7, rfl⟩) (by decide) rfl

end Collib
